import Mathlib

/-!
Verification of the retail sales analysis pipeline
(src/retail_sales_analysis.py).

The script is a linear sequence of dataframe operations over tables whose
schemas are inferred from CSV input.  We embed dataframes shallowly: a cell
value is null, a string or an integer; a row is an ordered list of named
cells; a table is a column list together with its rows.  Each dataframe
operation used by the script (dropDuplicates, fillna, join with a USING
column, the dense-rank window, groupBy/count, orderBy, take) is translated
to an executable Lean function on this representation, and the script's
derived dataframes (fact_orders_df, top_seller_products_df, the
top-customers report, the parquet/Hive sink) become Lean definitions over
those functions.
-/

namespace RetailSales


/-- Cell values of an inferred-schema dataframe: null, string, or integer. -/
inductive Val where
  | vnull : Val
  | vstr : String → Val
  | vint : Int → Val
deriving DecidableEq

/-- A row is an ordered list of named cells, mirroring one dataframe row
(the name list mirrors the dataframe's column list). -/
abbrev Row := List (String × Val)

/-- A dataframe: its column names, in order, and its rows.  Spark allows
two columns with the same name (this happens after joins), hence a plain
list of names. -/
structure Table where
  cols : List String
  rows : List Row
deriving DecidableEq

/-- Column lookup in a row: the value of the first cell with the given
name, null when the row has no such cell.  This mirrors Spark's
name-based column resolution. -/
def getCol (c : String) (r : Row) : Val :=
  match List.lookup c r with
  | some v => v
  | none => Val.vnull

/-- Generic keep-first deduplication along a key function, accumulating
the set of keys already seen.  `dropDuplicates` keeps one arbitrary
representative per key; we fix the first, which realises the
"keep an arbitrary single representative" policy deterministically. -/
def dedupOn {α β : Type} [DecidableEq β] (f : α → β) (seen : List β) : List α → List α
  | [] => []
  | a :: l => if f a ∈ seen then dedupOn f seen l else a :: dedupOn f (f a :: seen) l

/-- The tuple of key-column values used by dropDuplicates on a column subset. -/
def keyTuple (ks : List String) (r : Row) : List Val :=
  ks.map (fun k => getCol k r)

/-- Embeds line 75: orders_df.dropDuplicates with a list of key columns. -/
def dropDuplicatesBy (t : Table) (ks : List String) : Table :=
  ⟨t.cols, dedupOn (keyTuple ks) [] t.rows⟩

/-- Embeds line 76: order_items_df.dropDuplicates with no argument, which
deduplicates on all columns, i.e. removes fully identical rows. -/
def distinctRows (t : Table) : Table :=
  ⟨t.cols, dedupOn id [] t.rows⟩

/-- One cell under fillna for column c with replacement v: a null cell of
that column becomes v, every other cell is untouched. -/
def fillnaCell (c : String) (v : Val) (p : String × Val) : String × Val :=
  if p.1 = c then (if p.2 = Val.vnull then (p.1, v) else p) else p

/-- Embeds line 79: products_df.fillna on one named column. -/
def fillnaCol (t : Table) (c : String) (v : Val) : Table :=
  ⟨t.cols, t.rows.map (fun r => r.map (fillnaCell c v))⟩

/-- Spark equi-join matching on a USING column: the two key values must be
equal and non-null (SQL null never compares equal, so null keys match
nothing). -/
def keyMatches (k : String) (lr rr : Row) : Bool :=
  decide (getCol k lr ≠ Val.vnull) && decide (getCol k lr = getCol k rr)

/-- The rows of the right side matching a given left row on key k. -/
def matchesOf (k : String) (lr : Row) (rrows : List Row) : List Row :=
  rrows.filter (keyMatches k lr)

/-- Remove the first cell named c from a row (the USING column of the
right side is dropped from the join output). -/
def eraseKeyFirst (c : String) : Row → Row
  | [] => []
  | p :: r => if p.1 = c then r else p :: eraseKeyFirst c r

/-- Merge a matched pair of rows for a USING-column join: the key column
appears once, first, with the left value, followed by the remaining left
cells and then the remaining right cells.  This mirrors Spark's output
layout for df.join(other, usingColumn, how). -/
def mergeUsing (k : String) (lr rr : Row) : Row :=
  (k, getCol k lr) :: (eraseKeyFirst k lr ++ eraseKeyFirst k rr)

/-- An all-null row over the given columns, used to pad unmatched left
rows of a left join. -/
def nullRowOf (cols : List String) : Row :=
  cols.map (fun c => (c, Val.vnull))

/-- Rows of an inner USING-column join: each left row paired with each
matching right row; left rows with no match are dropped. -/
def innerRows (k : String) : List Row → List Row → List Row
  | [], _ => []
  | lr :: ls, rrows => (matchesOf k lr rrows).map (mergeUsing k lr) ++ innerRows k ls rrows

/-- Contribution of one left row to a left USING-column join: its matches,
or one null-padded row when there is none. -/
def leftRowsOne (k : String) (lr : Row) (rrows : List Row) (rcols : List String) : List Row :=
  match matchesOf k lr rrows with
  | [] => [mergeUsing k lr (nullRowOf rcols)]
  | ms => ms.map (mergeUsing k lr)

/-- Rows of a left USING-column join. -/
def leftRows (k : String) : List Row → List Row → List String → List Row
  | [], _, _ => []
  | lr :: ls, rrows, rcols => leftRowsOne k lr rrows rcols ++ leftRows k ls rrows rcols

/-- Column list of a USING-column join: the key once, first, then the
remaining left columns, then the remaining right columns.  Columns other
than the key are all retained, even when names collide. -/
def joinCols (k : String) (lcols rcols : List String) : List String :=
  k :: (lcols.erase k ++ rcols.erase k)

/-- df.join(other, k, inner). -/
def innerJoin (left right : Table) (k : String) : Table :=
  ⟨joinCols k left.cols right.cols, innerRows k left.rows right.rows⟩

/-- df.join(other, k, left). -/
def leftJoin (left right : Table) (k : String) : Table :=
  ⟨joinCols k left.cols right.cols, leftRows k left.rows right.rows right.cols⟩

/-- The seven loaded input tables of the script (section 3 of the source). -/
structure Dataset where
  customers : Table
  orders : Table
  order_items : Table
  order_payments : Table
  products : Table
  sellers : Table
  order_reviews : Table

/-- Line 75: orders_df := orders_df.dropDuplicates(["order_id"]). -/
def ordersClean (d : Dataset) : Table :=
  dropDuplicatesBy d.orders ["order_id"]

/-- Line 76: order_items_df := order_items_df.dropDuplicates(). -/
def orderItemsClean (d : Dataset) : Table :=
  distinctRows d.order_items

/-- Line 79: products_df := products_df.fillna on product_category_name. -/
def productsClean (d : Dataset) : Table :=
  fillnaCol d.products "product_category_name" (Val.vstr "unknown")

/-- Lines 84 to 90: the fact table join chain — order items inner-joined
to orders on order_id, then left-joined to products on product_id, to
sellers on seller_id, and to payments on order_id. -/
def fact_orders_df (d : Dataset) : Table :=
  leftJoin
    (leftJoin
      (leftJoin
        (innerJoin (orderItemsClean d) (ordersClean d) "order_id")
        (productsClean d) "product_id")
      d.sellers "seller_id")
    d.order_payments "order_id"

/-! Concrete scenario data.  Each claim uses its own concrete tables. -/

/-- An empty table: no columns, no rows. -/
def emptyTable : Table := ⟨[], []⟩

/-- Assemble a dataset from the five tables the claims exercise;
customers and reviews do not feed the cleaner, fact table or reports
under scrutiny. -/
def mkDataset (orders items payments products sellers : Table) : Dataset :=
  ⟨emptyTable, orders, items, payments, products, sellers, emptyTable⟩

/-- C3 scenario input: two Order rows sharing order_id "A", differing only
in a timestamp column. -/
def datasetC3 : Dataset :=
  mkDataset
    ⟨["order_id", "customer_id", "order_purchase_timestamp"],
     [[("order_id", Val.vstr "A"), ("customer_id", Val.vstr "C1"),
       ("order_purchase_timestamp", Val.vint 1)],
      [("order_id", Val.vstr "A"), ("customer_id", Val.vstr "C1"),
       ("order_purchase_timestamp", Val.vint 2)]]⟩
    emptyTable emptyTable emptyTable emptyTable

/-- C4 scenario input: one Product row with a null category. -/
def datasetC4 : Dataset :=
  mkDataset emptyTable emptyTable emptyTable
    ⟨["product_id", "product_category_name"],
     [[("product_id", Val.vstr "P1"), ("product_category_name", Val.vnull)]]⟩
    emptyTable

/-- Concrete input for the C10 witness: an Order and an OrderItem table
with duplicate rows. -/
def datasetC10 : Dataset :=
  mkDataset
    ⟨["order_id"], [[("order_id", Val.vstr "A")], [("order_id", Val.vstr "A")]]⟩
    ⟨["order_id", "order_item_id"],
     [[("order_id", Val.vstr "A"), ("order_item_id", Val.vint 1)],
      [("order_id", Val.vstr "A"), ("order_item_id", Val.vint 1)]]⟩
    emptyTable emptyTable emptyTable

/-! The Sink (sections 11 and 12 of the source): the parquet write with
overwrite mode, and the Hive catalog registration with CREATE EXTERNAL
TABLE IF NOT EXISTS.  We model the externally visible state the sink
touches: the file set at the output location and the catalog entry. -/

/-- A catalog entry: the declared column schema and the bound location. -/
structure CatalogEntry where
  tableSchema : List (String × String)
  location : String
deriving DecidableEq

/-- The entry created by the CREATE EXTERNAL TABLE statement of lines
152 to 166. -/
def retailFactOrdersEntry : CatalogEntry :=
  ⟨[("order_id", "STRING"), ("order_item_id", "INT"), ("product_id", "STRING"),
    ("seller_id", "STRING"), ("price", "DOUBLE"), ("freight_value", "DOUBLE"),
    ("product_category_name", "STRING"), ("payment_type", "STRING"),
    ("payment_value", "DOUBLE")],
   "/warehouse/retail_analytics/fact_orders"⟩

/-- The sink-visible external state: the columnar file set currently at
the fact_orders output location (none when nothing was ever written) and
the catalog's retail_fact_orders entry (none when absent). -/
structure SinkState where
  factFiles : Option Table
  catalog : Option CatalogEntry
deriving DecidableEq

/-- Lines 142 to 166: write the fact table in overwrite mode (the file
set is fully replaced), then create the catalog entry only if absent. -/
def runSink (fact : Table) (s : SinkState) : SinkState :=
  ⟨some fact, some (s.catalog.getD retailFactOrdersEntry)⟩

/-! The session lifecycle (C8).  The script is straight-line Python: the
Spark session is created by the first statement (lines 15 to 18) and
spark.stop() is the final statement (line 185); there is no try/finally
or context manager around the intermediate work.  We model the control
flow as an event trace: one acquire event, then the twelve intermediate
numbered sections of the script in order, each of which may raise; an
exception aborts the remainder of the straight-line script, including
the final stop() call. -/

/-- Observable lifecycle events of the script run. -/
inductive Event where
  | acquire : Event
  | release : Event
  | step : Nat → Event
deriving DecidableEq

/-- The intermediate numbered sections of the script between session
creation and spark.stop (sections 2 to 13 of the source). -/
def pipelineStepCount : Nat := 12

/-- Remaining trace after the session exists: runs steps i, i+1, ... in
order; a failing step raises, so nothing after it executes — in
particular the final stop() is reached only when every step succeeded. -/
def runTail (fails : Nat → Bool) : Nat → Nat → List Event
  | _, 0 => [Event.release]
  | i, n + 1 => if fails i then [] else Event.step i :: runTail fails (i + 1) n

/-- The full event trace of one script run: the session is acquired
first, unconditionally; the rest is the straight-line body. -/
def runScriptEvents (fails : Nat → Bool) : List Event :=
  Event.acquire :: runTail fails 0 pipelineStepCount

/-- Concrete input for the C9 witness: the seven olist tables with their
real column lists (rows are irrelevant to column bookkeeping). -/
def datasetC9 : Dataset :=
  mkDataset
    ⟨["order_id", "customer_id", "order_status", "order_purchase_timestamp"], []⟩
    ⟨["order_id", "order_item_id", "product_id", "seller_id",
      "shipping_limit_date", "price", "freight_value"], []⟩
    ⟨["order_id", "payment_sequential", "payment_type",
      "payment_installments", "payment_value"], []⟩
    ⟨["product_id", "product_category_name"], []⟩
    ⟨["seller_id", "seller_zip_code_prefix", "seller_city", "seller_state"], []⟩

/-- Concrete input for the C6 counterexample: every table carries its
full column set (all USING columns of the join chain present on both
sides, so the real join chain runs without error), and Order and
Product both carry a non-key column named x, with different values. -/
def datasetC6 : Dataset :=
  mkDataset
    ⟨["order_id", "customer_id", "x"],
     [[("order_id", Val.vstr "A"), ("customer_id", Val.vstr "C"),
       ("x", Val.vstr "o")]]⟩
    ⟨["order_id", "order_item_id", "product_id", "seller_id", "price"],
     [[("order_id", Val.vstr "A"), ("order_item_id", Val.vint 1),
       ("product_id", Val.vstr "P"), ("seller_id", Val.vstr "S"),
       ("price", Val.vint 50)]]⟩
    ⟨["order_id", "payment_type"],
     [[("order_id", Val.vstr "A"), ("payment_type", Val.vstr "credit")]]⟩
    ⟨["product_id", "product_category_name", "x"],
     [[("product_id", Val.vstr "P"), ("product_category_name", Val.vstr "cat"),
       ("x", Val.vstr "p")]]⟩
    ⟨["seller_id", "seller_city"],
     [[("seller_id", Val.vstr "S"), ("seller_city", Val.vstr "city")]]⟩

/-! The top-customers-by-order-count report (C5).  Source lines 134 to
137 group orders_df by customer_id, count, order descending by count and
show 10 rows.  Note that at line 75 the script rebinds orders_df to its
deduplicated version, so the report at line 134 reads the cleaned Order
table, not the raw one. -/

/-- groupBy(c).count(): one output pair per distinct value of column c
(in first-occurrence order), carrying the number of rows with that
value. -/
def groupCountBy (t : Table) (c : String) : List (Val × Nat) :=
  (dedupOn id [] (t.rows.map (getCol c))).map
    (fun v => (v, (t.rows.filter (fun r => decide (getCol c r = v))).length))

/-- Stable insertion for a descending sort on the count component. -/
def insertByCountDesc (p : Val × Nat) : List (Val × Nat) → List (Val × Nat)
  | [] => [p]
  | q :: qs => if p.2 ≤ q.2 then q :: insertByCountDesc p qs else p :: q :: qs

/-- orderBy(col count, descending), as an insertion sort. -/
def sortByCountDesc : List (Val × Nat) → List (Val × Nat)
  | [] => []
  | p :: ps => insertByCountDesc p (sortByCountDesc ps)

/-- Lines 134 to 137 as the script executes them: the report reads the
rebind of orders_df, i.e. the deduplicated Order table. -/
def topCustomersByOrderCount (d : Dataset) : List (Val × Nat) :=
  (sortByCountDesc (groupCountBy (ordersClean d) "customer_id")).take 10

/-- The claim's words, as a second definition for comparison: the same
report computed over the raw (uncleaned) Order table. -/
def topCustomersClaimedRaw (d : Dataset) : List (Val × Nat) :=
  (sortByCountDesc (groupCountBy d.orders "customer_id")).take 10

/-- Concrete input for the C5 counterexample: the raw Order table has two
rows of the same order (a duplicate), both for customer C1. -/
def datasetC5 : Dataset :=
  mkDataset
    ⟨["order_id", "customer_id"],
     [[("order_id", Val.vstr "A"), ("customer_id", Val.vstr "C1")],
      [("order_id", Val.vstr "A"), ("customer_id", Val.vstr "C1")]]⟩
    emptyTable emptyTable emptyTable emptyTable

/-! Row counting through the fact-table join chain (C1).  The chain is
decomposed into its stages; the count of an inner join is the sum of
per-left-row match counts, a left join contributes max 1 (match count)
per left row, and the product and seller joins preserve counts when
their key is unique on the right side. -/

/-- Stage 1 of the fact table: the rows of the inner join of cleaned
order items to cleaned orders on order_id. -/
def stageJ1 (d : Dataset) : List Row :=
  innerRows "order_id" (orderItemsClean d).rows (ordersClean d).rows

/-- Stage 2: stage 1 left-joined to cleaned products on product_id. -/
def stageJ2 (d : Dataset) : List Row :=
  leftRows "product_id" (stageJ1 d) (productsClean d).rows (productsClean d).cols

/-- Stage 3: stage 2 left-joined to sellers on seller_id. -/
def stageJ3 (d : Dataset) : List Row :=
  leftRows "seller_id" (stageJ2 d) d.sellers.rows d.sellers.cols

/-- The payment fan-out of a row: the number of fact rows one row
produces under the final left join to payments — its number of matching
payment rows, or one when there is none. -/
def payFanOut (d : Dataset) (r : Row) : Nat :=
  max 1 (matchesOf "order_id" r d.order_payments.rows).length

/-- The number of cleaned order-item rows matching an order row on
order_id. -/
def itemCountFor (d : Dataset) (o : Row) : Nat :=
  (matchesOf "order_id" o (orderItemsClean d).rows).length

/-- The number of payment rows matching an order row on order_id. -/
def paymentCountFor (d : Dataset) (o : Row) : Nat :=
  (matchesOf "order_id" o d.order_payments.rows).length

/-- C1 as literally claimed fails on this input: every table carries its
full column set (in particular every USING column of the join chain is
present on both sides, so the real join chain runs without error), the
one seller is unique, but the Product table holds two rows of the same
product_id; the single order item fans out over both product rows, so
the fact table has 2 rows while the claimed per-order
item-times-payment formula gives 1. -/
def datasetC1x : Dataset :=
  mkDataset
    ⟨["order_id", "customer_id"],
     [[("order_id", Val.vstr "A"), ("customer_id", Val.vstr "C")]]⟩
    ⟨["order_id", "order_item_id", "product_id", "seller_id", "price"],
     [[("order_id", Val.vstr "A"), ("order_item_id", Val.vint 1),
       ("product_id", Val.vstr "P"), ("seller_id", Val.vstr "S"),
       ("price", Val.vint 50)]]⟩
    ⟨["order_id", "payment_type", "payment_value"],
     [[("order_id", Val.vstr "A"), ("payment_type", Val.vstr "credit"),
       ("payment_value", Val.vint 10)]]⟩
    ⟨["product_id", "product_category_name"],
     [[("product_id", Val.vstr "P"), ("product_category_name", Val.vstr "c1")],
      [("product_id", Val.vstr "P"), ("product_category_name", Val.vstr "c2")]]⟩
    ⟨["seller_id", "seller_city"],
     [[("seller_id", Val.vstr "S"), ("seller_city", Val.vstr "x")]]⟩

/-- Concrete input for the C1 amended witness: one order with two items
and two payments, one product and one seller, each with unique keys, so
the fact table has two items times two payments equal to four rows. -/
def datasetC1w : Dataset :=
  mkDataset
    ⟨["order_id", "customer_id"],
     [[("order_id", Val.vstr "A"), ("customer_id", Val.vstr "C1")]]⟩
    ⟨["order_id", "order_item_id", "product_id", "seller_id", "price"],
     [[("order_id", Val.vstr "A"), ("order_item_id", Val.vint 1),
       ("product_id", Val.vstr "P"), ("seller_id", Val.vstr "S"),
       ("price", Val.vint 50)],
      [("order_id", Val.vstr "A"), ("order_item_id", Val.vint 2),
       ("product_id", Val.vstr "P"), ("seller_id", Val.vstr "S"),
       ("price", Val.vint 30)]]⟩
    ⟨["order_id", "payment_type", "payment_value"],
     [[("order_id", Val.vstr "A"), ("payment_type", Val.vstr "credit"),
       ("payment_value", Val.vint 60)],
      [("order_id", Val.vstr "A"), ("payment_type", Val.vstr "voucher"),
       ("payment_value", Val.vint 20)]]⟩
    ⟨["product_id", "product_category_name"],
     [[("product_id", Val.vstr "P"), ("product_category_name", Val.vnull)]]⟩
    ⟨["seller_id", "seller_city"],
     [[("seller_id", Val.vstr "S"), ("seller_city", Val.vstr "x")]]⟩

/-! The top-products-per-seller window query (C2).  Source lines 118 to
125: a window partitioned by seller_id and ordered by price descending,
a dense_rank column, a filter rank at most 5, and a four-column
projection.  Spark orders descending with nulls last; dense_rank assigns
1 plus the number of distinct order-key values strictly ahead of the
row's value within its partition. -/

/-- Strict precedence of order-key values under ORDER BY price DESC with
Spark's default nulls-last placement: any non-null value precedes null;
larger numbers precede smaller; larger strings precede smaller; values
of different kinds are unordered. -/
def descBefore : Val → Val → Bool
  | Val.vnull, _ => false
  | _, Val.vnull => true
  | Val.vint a, Val.vint b => decide (b < a)
  | Val.vstr a, Val.vstr b => decide (b < a)
  | _, _ => false

/-- A value is an integer or null (the shapes a numeric Spark column can
take in a window ordered by it). -/
def isIntOrNull : Val → Bool
  | Val.vstr _ => false
  | _ => true

/-- The distinct order-column values of a row partition, in
first-occurrence order. -/
def partitionVals (prows : List Row) (orderCol : String) : List Val :=
  dedupOn id [] (prows.map (getCol orderCol))

/-- dense_rank().over(Window.partitionBy(partCol).orderBy(orderCol
descending)): one plus the number of distinct order-column values within
the row's partition that strictly precede the row's value. -/
def denseRank (allRows : List Row) (partCol orderCol : String) (r : Row) : Nat :=
  1 + ((partitionVals
        (allRows.filter (fun s => decide (getCol partCol s = getCol partCol r)))
        orderCol).filter
      (fun v => descBefore v (getCol orderCol r))).length

/-- Line 122: withColumn adds the rank column computed by the
seller_id/price window over the fact table's rows. -/
def withRankCol (t : Table) : Table :=
  ⟨t.cols ++ ["rank"],
   t.rows.map (fun r =>
     r ++ [("rank", Val.vint (Int.ofNat (denseRank t.rows "seller_id" "price" r)))])⟩

/-- Line 123: the filter col(rank) at most 5. -/
def rankAtMost5 (r : Row) : Bool :=
  match getCol "rank" r with
  | Val.vint n => decide (n ≤ 5)
  | _ => false

/-- df.filter on rows. -/
def filterRows (t : Table) (p : Row → Bool) : Table :=
  ⟨t.cols, t.rows.filter p⟩

/-- df.select on a list of column names. -/
def selectCols (cs : List String) (t : Table) : Table :=
  ⟨cs, t.rows.map (fun r => cs.map (fun c => (c, getCol c r)))⟩

/-- Lines 120 to 125: the ranked, filtered, projected
top-products-per-seller dataframe. -/
def top_seller_products_df (d : Dataset) : Table :=
  selectCols ["seller_id", "product_id", "price", "rank"]
    (filterRows (withRankCol (fact_orders_df d)) rankAtMost5)

/-- C2 scenario input: seller S1 with three order items priced 50, 50
and 30, all on one order. -/
def datasetC2 : Dataset :=
  mkDataset
    ⟨["order_id"], [[("order_id", Val.vstr "O1")]]⟩
    ⟨["order_id", "product_id", "seller_id", "price"],
     [[("order_id", Val.vstr "O1"), ("product_id", Val.vstr "P1"),
       ("seller_id", Val.vstr "S1"), ("price", Val.vint 50)],
      [("order_id", Val.vstr "O1"), ("product_id", Val.vstr "P2"),
       ("seller_id", Val.vstr "S1"), ("price", Val.vint 50)],
      [("order_id", Val.vstr "O1"), ("product_id", Val.vstr "P3"),
       ("seller_id", Val.vstr "S1"), ("price", Val.vint 30)]]⟩
    emptyTable emptyTable emptyTable

/-! From here on: the verification results about the embedded pipeline. -/

/-! Basic lemmas about the row and dedup primitives. -/

theorem dedupOn_mem {α β : Type} [DecidableEq β] (f : α → β) :
    ∀ (l : List α) (seen : List β) (a : α), a ∈ dedupOn f seen l → a ∈ l := by
  intro l
  induction l with
  | nil => intro seen a h; simp [dedupOn] at h
  | cons b l ih =>
    intro seen a h
    simp only [dedupOn] at h
    by_cases hb : f b ∈ seen
    · simp [hb] at h
      exact List.mem_cons_of_mem _ (ih _ _ h)
    · simp [hb] at h
      rcases h with h | h
      · simp [h]
      · exact List.mem_cons_of_mem _ (ih _ _ h)

theorem dedupOn_key_not_seen {α β : Type} [DecidableEq β] (f : α → β) :
    ∀ (l : List α) (seen : List β) (a : α), a ∈ dedupOn f seen l → f a ∉ seen := by
  intro l
  induction l with
  | nil => intro seen a h; simp [dedupOn] at h
  | cons b l ih =>
    intro seen a h
    simp only [dedupOn] at h
    by_cases hb : f b ∈ seen
    · simp [hb] at h
      exact ih _ _ h
    · simp [hb] at h
      rcases h with h | h
      · subst h; exact hb
      · intro hmem
        exact ih _ _ h (List.mem_cons_of_mem _ hmem)

theorem dedupOn_pairwise {α β : Type} [DecidableEq β] (f : α → β) :
    ∀ (l : List α) (seen : List β),
      (dedupOn f seen l).Pairwise (fun a b => f a ≠ f b) := by
  intro l
  induction l with
  | nil => intro seen; simp [dedupOn]
  | cons b l ih =>
    intro seen
    simp only [dedupOn]
    by_cases hb : f b ∈ seen
    · simp [hb]; exact ih seen
    · simp [hb]
      refine ⟨?_, ih _⟩
      intro a ha heq
      have := dedupOn_key_not_seen f l (f b :: seen) a ha
      exact this (by simp [heq])

/-! Lemmas about fillna at the level of a single row. -/

theorem fillnaCell_other (c : String) (v : Val) (k : String) (x : Val) (hk : k ≠ c) :
    fillnaCell c v (k, x) = (k, x) := by
  simp [fillnaCell, hk]

theorem fillnaCell_null (c : String) (v : Val) :
    fillnaCell c v (c, Val.vnull) = (c, v) := by
  simp [fillnaCell]

theorem fillnaCell_notnull (c : String) (v : Val) (x : Val) (hx : x ≠ Val.vnull) :
    fillnaCell c v (c, x) = (c, x) := by
  simp [fillnaCell, hx]

theorem lookup_map_fillnaCell_self (c : String) (v : Val) (r : Row) :
    List.lookup c (r.map (fillnaCell c v)) =
      (List.lookup c r).map (fun x => if x = Val.vnull then v else x) := by
  induction r with
  | nil => simp
  | cons p r ih =>
    obtain ⟨k, x⟩ := p
    by_cases hk : k = c
    · subst hk
      by_cases hx : x = Val.vnull
      · subst hx
        rw [List.map_cons, fillnaCell_null]
        simp [List.lookup]
      · rw [List.map_cons, fillnaCell_notnull k v x hx]
        simp [List.lookup, hx]
    · have hne : (c == k) = false := by
        simp [Ne.symm hk]
      rw [List.map_cons, fillnaCell_other c v k x hk]
      simp [List.lookup, hne, ih]

theorem lookup_map_fillnaCell_ne (c c' : String) (v : Val) (r : Row) (h : c' ≠ c) :
    List.lookup c' (r.map (fillnaCell c v)) = List.lookup c' r := by
  induction r with
  | nil => simp
  | cons p r ih =>
    obtain ⟨k, x⟩ := p
    by_cases hk : k = c
    · subst hk
      have hne : (c' == k) = false := by simp [h]
      by_cases hx : x = Val.vnull
      · subst hx
        rw [List.map_cons, fillnaCell_null]
        simp [List.lookup, hne, ih]
      · rw [List.map_cons, fillnaCell_notnull k v x hx]
        simp [List.lookup, hne, ih]
    · rw [List.map_cons, fillnaCell_other c v k x hk]
      by_cases hck : c' = k
      · subst hck
        simp [List.lookup]
      · have hne : (c' == k) = false := by simp [hck]
        simp [List.lookup, hne, ih]

theorem keys_map_fillnaCell (c : String) (v : Val) (r : Row) :
    (r.map (fillnaCell c v)).map Prod.fst = r.map Prod.fst := by
  induction r with
  | nil => simp
  | cons p r ih =>
    obtain ⟨k, x⟩ := p
    by_cases hk : k = c
    · subst hk
      by_cases hx : x = Val.vnull
      · subst hx
        rw [List.map_cons, fillnaCell_null]
        simp [ih]
      · rw [List.map_cons, fillnaCell_notnull k v x hx]
        simp [ih]
    · rw [List.map_cons, fillnaCell_other c v k x hk]
      simp [ih]

/-- C3: for every input, the cleaned Order table has no two rows sharing
an order_id and the cleaned OrderItem table has no two fully equal rows;
on the scenario input with two rows of order_id "A" differing in a
timestamp, exactly one row with order_id "A" remains. -/
theorem C3_cleaner_dedup_invariants (d : Dataset) :
    (ordersClean d).rows.Pairwise
      (fun r s => getCol "order_id" r ≠ getCol "order_id" s)
    ∧ (orderItemsClean d).rows.Nodup
    ∧ ((ordersClean datasetC3).rows.filter
        (fun r => decide (getCol "order_id" r = Val.vstr "A"))).length = 1
    ∧ (ordersClean datasetC3).rows.length = 1 := by
  refine ⟨?_, ?_, by decide, by decide⟩
  · have h := dedupOn_pairwise (keyTuple ["order_id"]) d.orders.rows []
    refine h.imp ?_
    intro r s hne heq
    exact hne (by simp [keyTuple, heq])
  · have h := dedupOn_pairwise (id : Row → Row) d.order_items.rows []
    exact h.imp (fun hne => hne)

/-- C4: the cleaner replaces every null product_category_name with the
string "unknown" (so the column is never null afterwards, provided the
column exists in each row, as the inferred schema guarantees), leaves
every other column of every row unchanged, and on the scenario row P1
with null category produces the category "unknown". -/
theorem C4_product_category_fill (d : Dataset)
    (hc : ∀ r ∈ d.products.rows,
        (List.lookup "product_category_name" r).isSome = true) :
    (∀ r' ∈ (productsClean d).rows,
        getCol "product_category_name" r' ≠ Val.vnull
        ∧ ∃ r ∈ d.products.rows,
            getCol "product_category_name" r' =
              (if getCol "product_category_name" r = Val.vnull then Val.vstr "unknown"
               else getCol "product_category_name" r)
            ∧ (∀ c, c ≠ "product_category_name" → List.lookup c r' = List.lookup c r)
            ∧ r'.map Prod.fst = r.map Prod.fst)
    ∧ (productsClean datasetC4).rows =
        [[("product_id", Val.vstr "P1"), ("product_category_name", Val.vstr "unknown")]] := by
  constructor
  · intro r' hr'
    simp only [productsClean, fillnaCol, List.mem_map] at hr'
    obtain ⟨r, hr, hr'eq⟩ := hr'
    subst hr'eq
    have hsome := hc r hr
    obtain ⟨x, hx⟩ := Option.isSome_iff_exists.mp hsome
    constructor
    · simp only [getCol, lookup_map_fillnaCell_self, hx, Option.map_some]
      by_cases hn : x = Val.vnull
      · simp [hn]
      · simp [hn]
    · refine ⟨r, hr, ?_, ?_, keys_map_fillnaCell _ _ _⟩
      · simp only [getCol, lookup_map_fillnaCell_self, hx, Option.map_some]
        by_cases hn : x = Val.vnull
        · simp [hn]
        · simp [hn]
      · intro c hcn
        exact lookup_map_fillnaCell_ne _ c _ r hcn
  · decide

/-- C4 witness: the hypothesis and the conclusion hold at the concrete
C4 scenario dataset. -/
theorem C4_product_category_fill_witness :
    (∀ r ∈ datasetC4.products.rows,
        (List.lookup "product_category_name" r).isSome = true)
    ∧ (productsClean datasetC4).rows =
        [[("product_id", Val.vstr "P1"), ("product_category_name", Val.vstr "unknown")]] :=
  ⟨by decide, (C4_product_category_fill datasetC4 (by decide)).2⟩

/-- C10: deduplication never invents or alters data — every cleaned Order
row and every cleaned OrderItem row equals, field for field, some row of
the corresponding input table. -/
theorem C10_dedup_row_subset (d : Dataset) :
    (∀ r, r ∈ (ordersClean d).rows → r ∈ d.orders.rows)
    ∧ (∀ r, r ∈ (orderItemsClean d).rows → r ∈ d.order_items.rows) := by
  constructor
  · intro r h
    exact dedupOn_mem _ _ _ _ h
  · intro r h
    exact dedupOn_mem _ _ _ _ h

/-- C10 witness: on a concrete input with duplicates, the surviving
cleaned rows are rows of the input tables. -/
theorem C10_dedup_row_subset_witness :
    [("order_id", Val.vstr "A")] ∈ (ordersClean datasetC10).rows
    ∧ [("order_id", Val.vstr "A")] ∈ datasetC10.orders.rows :=
  ⟨by decide, (C10_dedup_row_subset datasetC10).1 _ (by decide)⟩

/-- C7: re-running the sink on the same fact table is idempotent — the
file set and catalog entry after the second run equal those after the
first; instantiated with the pipeline's fact table, re-running the whole
pipeline on unchanged input leaves the sink state of the first run. -/
theorem C7_sink_idempotent (d : Dataset) (s : SinkState) :
    runSink (fact_orders_df d) (runSink (fact_orders_df d) s)
      = runSink (fact_orders_df d) s
    ∧ (∀ fact : Table, ∀ s0 : SinkState,
        runSink fact (runSink fact s0) = runSink fact s0) := by
  constructor
  · simp [runSink]
  · intro fact s0
    simp [runSink]

theorem runTail_count_release (fails : Nat → Bool) :
    ∀ (n i : Nat),
      (runTail fails i n).countP (fun e => decide (e = Event.release))
        = (if ∀ j, j < n → fails (i + j) = false then 1 else 0) := by
  intro n
  induction n with
  | zero => intro i; simp [runTail]
  | succ m ih =>
    intro i
    by_cases hf : fails i = true
    · have : ¬ (∀ j, j < m + 1 → fails (i + j) = false) := by
        intro hall
        have := hall 0 (Nat.succ_pos m)
        simp [hf] at this
      simp [runTail, hf, this]
    · have hf0 : fails i = false := by
        revert hf
        cases fails i <;> simp
      simp [runTail, hf0, List.countP_cons, ih (i + 1)]
      by_cases hall : ∀ j, j < m → fails (i + 1 + j) = false
      · have h2 : ∀ j, j < m + 1 → fails (i + j) = false := by
          intro j hj
          cases j with
          | zero => simpa using hf0
          | succ j' =>
            have := hall j' (Nat.lt_of_succ_lt_succ hj)
            simpa [Nat.add_comm, Nat.add_assoc, Nat.add_left_comm] using this
        rw [if_pos hall, if_pos h2]
      · have h2 : ¬ (∀ j, j < m + 1 → fails (i + j) = false) := by
          intro hall2
          apply hall
          intro j hj
          have := hall2 (j + 1) (Nat.succ_lt_succ hj)
          simpa [Nat.add_comm, Nat.add_assoc, Nat.add_left_comm] using this
        rw [if_neg hall, if_neg h2]

theorem runTail_count_acquire (fails : Nat → Bool) :
    ∀ (n i : Nat),
      (runTail fails i n).countP (fun e => decide (e = Event.acquire)) = 0 := by
  intro n
  induction n with
  | zero => intro i; simp [runTail]
  | succ m ih =>
    intro i
    by_cases hf : fails i = true
    · simp [runTail, hf]
    · have hf0 : fails i = false := by
        revert hf
        cases fails i <;> simp
      simp [runTail, hf0, List.countP_cons, ih (i + 1)]

/-- C8 counterexample: when the very first intermediate step fails, the
trace of the script contains no release event at all — the session is
not released, because spark.stop() is only the last statement of a
straight-line script, with no acquire/release bracket around it. -/
theorem C8_counterexample :
    (runScriptEvents (fun i => decide (i = 0))).countP
        (fun e => decide (e = Event.release)) = 0
    ∧ Event.release ∉ runScriptEvents (fun i => decide (i = 0)) := by
  constructor
  · rfl
  · decide

/-- C8 amended: the session is acquired exactly once per run,
unconditionally; it is released exactly once when every intermediate
step succeeds, and zero times as soon as any intermediate step fails —
there is no top-level acquire/release bracket guaranteeing teardown. -/
theorem C8_amended_session_lifecycle (fails : Nat → Bool) :
    (runScriptEvents fails).countP (fun e => decide (e = Event.acquire)) = 1
    ∧ ((∀ i, i < pipelineStepCount → fails i = false) →
        (runScriptEvents fails).countP (fun e => decide (e = Event.release)) = 1)
    ∧ (∀ i, i < pipelineStepCount → fails i = true →
        (runScriptEvents fails).countP (fun e => decide (e = Event.release)) = 0) := by
  refine ⟨?_, ?_, ?_⟩
  · simp [runScriptEvents, List.countP_cons, runTail_count_acquire]
  · intro hall
    have hz : ∀ j, j < pipelineStepCount → fails (0 + j) = false := by
      intro j hj
      simpa using hall j hj
    simp only [runScriptEvents, List.countP_cons, runTail_count_release]
    rw [if_pos hz]
    rfl
  · intro i hi hf
    have hz : ¬ (∀ j, j < pipelineStepCount → fails (0 + j) = false) := by
      intro hall
      have := hall i hi
      simp [hf] at this
    simp only [runScriptEvents, List.countP_cons, runTail_count_release]
    rw [if_neg hz]
    rfl

/-- C8 witness: at the all-succeeding run, the session is acquired once
and released once; at a run failing at step 3, it is released zero
times. -/
theorem C8_amended_session_lifecycle_witness :
    ((∀ i, i < pipelineStepCount → (fun _ : Nat => false) i = false)
      ∧ (runScriptEvents (fun _ => false)).countP
          (fun e => decide (e = Event.acquire)) = 1
      ∧ (runScriptEvents (fun _ => false)).countP
          (fun e => decide (e = Event.release)) = 1)
    ∧ ((3 < pipelineStepCount ∧ (fun i : Nat => decide (i = 3)) 3 = true)
      ∧ (runScriptEvents (fun i => decide (i = 3))).countP
          (fun e => decide (e = Event.release)) = 0) :=
  ⟨⟨by intro i hi; rfl,
    (C8_amended_session_lifecycle (fun _ => false)).1,
    (C8_amended_session_lifecycle (fun _ => false)).2.1 (by intro i hi; rfl)⟩,
   ⟨⟨by decide, by decide⟩,
    (C8_amended_session_lifecycle (fun i => decide (i = 3))).2.2 3 (by decide) (by decide)⟩⟩

/-! Column bookkeeping of the fact-table join chain (C6 and C9). -/

/-- The column list of the fact table, unfolded: the join chain over the
input tables' column lists (cleaning does not change columns). -/
theorem fact_cols_eq (d : Dataset) :
    (fact_orders_df d).cols =
      joinCols "order_id"
        (joinCols "seller_id"
          (joinCols "product_id"
            (joinCols "order_id" d.order_items.cols d.orders.cols)
            d.products.cols)
          d.sellers.cols)
        d.order_payments.cols := rfl

theorem count_joinCols_ne (c k : String) (h : c ≠ k) (l r : List String) :
    (joinCols k l r).count c = l.count c + r.count c := by
  simp [joinCols, List.count_cons, List.count_append, List.count_erase_of_ne h, h]

theorem count_joinCols_self (k : String) (l r : List String) :
    (joinCols k l r).count k = 1 + (l.count k - 1) + (r.count k - 1) := by
  simp [joinCols, List.count_cons, List.count_append, List.count_erase_self]
  omega

/-- C9: under the loaded tables' schemas (each join key occurs exactly
once in the tables that carry it and not at all elsewhere), each of the
three join keys appears exactly once among the fact table's columns —
the USING-column joins coalesce the two key columns instead of
duplicating them. -/
theorem C9_join_keys_coalesced (d : Dataset)
    (h1 : d.order_items.cols.count "order_id" = 1)
    (h2 : d.orders.cols.count "order_id" = 1)
    (h3 : d.order_payments.cols.count "order_id" = 1)
    (h4 : d.products.cols.count "order_id" = 0)
    (h5 : d.sellers.cols.count "order_id" = 0)
    (h6 : d.order_items.cols.count "product_id" = 1)
    (h7 : d.products.cols.count "product_id" = 1)
    (h8 : d.orders.cols.count "product_id" = 0)
    (h9 : d.sellers.cols.count "product_id" = 0)
    (h10 : d.order_payments.cols.count "product_id" = 0)
    (h11 : d.order_items.cols.count "seller_id" = 1)
    (h12 : d.sellers.cols.count "seller_id" = 1)
    (h13 : d.orders.cols.count "seller_id" = 0)
    (h14 : d.products.cols.count "seller_id" = 0)
    (h15 : d.order_payments.cols.count "seller_id" = 0) :
    (fact_orders_df d).cols.count "order_id" = 1
    ∧ (fact_orders_df d).cols.count "product_id" = 1
    ∧ (fact_orders_df d).cols.count "seller_id" = 1 := by
  have hop : "order_id" ≠ "product_id" := by decide
  have hos : "order_id" ≠ "seller_id" := by decide
  have hpo : "product_id" ≠ "order_id" := by decide
  have hps : "product_id" ≠ "seller_id" := by decide
  have hso : "seller_id" ≠ "order_id" := by decide
  have hsp : "seller_id" ≠ "product_id" := by decide
  refine ⟨?_, ?_, ?_⟩
  · rw [fact_cols_eq, count_joinCols_self, count_joinCols_ne _ _ hos,
      count_joinCols_ne _ _ hop, count_joinCols_self, h1, h2, h4, h5, h3]
  · rw [fact_cols_eq, count_joinCols_ne _ _ hpo, count_joinCols_ne _ _ hps,
      count_joinCols_self, count_joinCols_ne _ _ hpo, h6, h8, h7, h9, h10]
  · rw [fact_cols_eq, count_joinCols_ne _ _ hso, count_joinCols_self,
      count_joinCols_ne _ _ hsp, count_joinCols_ne _ _ hso, h11, h13, h14, h12, h15]

/-- C9 witness: the schema hypotheses and the coalescing conclusion hold
at the real olist schemas. -/
theorem C9_join_keys_coalesced_witness :
    (datasetC9.order_items.cols.count "order_id" = 1
      ∧ datasetC9.orders.cols.count "order_id" = 1
      ∧ datasetC9.order_payments.cols.count "order_id" = 1)
    ∧ ((fact_orders_df datasetC9).cols.count "order_id" = 1
      ∧ (fact_orders_df datasetC9).cols.count "product_id" = 1
      ∧ (fact_orders_df datasetC9).cols.count "seller_id" = 1) :=
  ⟨⟨by decide, by decide, by decide⟩,
   C9_join_keys_coalesced datasetC9 (by decide) (by decide) (by decide) (by decide)
     (by decide) (by decide) (by decide) (by decide) (by decide) (by decide)
     (by decide) (by decide) (by decide) (by decide) (by decide)⟩

/-- C6 counterexample: on a full-schema input where Order and Product
share the non-key column x, the fact table carries the column x twice —
the column set is not a union with one surviving column — and its
single row retains both the Order-side cell and the Product-side cell,
so the later-joined Product value did not overwrite the earlier one and
the claimed last-writer precedence fails. -/
theorem C6_counterexample :
    (fact_orders_df datasetC6).cols.count "x" = 2
    ∧ (fact_orders_df datasetC6).rows.length = 1
    ∧ (fact_orders_df datasetC6).rows.all
        (fun r => decide (("x", Val.vstr "o") ∈ r)
          && decide (("x", Val.vstr "p") ∈ r)) = true := by
  refine ⟨by decide, by decide, by decide⟩

/-- C6 amended: the three join keys are coalesced, and every other
column of every joined table is retained — for a non-key name, its
multiplicity among the fact columns is the sum of its multiplicities in
the five joined tables, so same-named non-key columns of different
tables are kept side by side rather than one overwriting the other. -/
theorem C6_amended_column_multiplicity (d : Dataset) (c : String)
    (h1 : c ≠ "order_id") (h2 : c ≠ "product_id") (h3 : c ≠ "seller_id") :
    (fact_orders_df d).cols.count c =
      d.order_items.cols.count c + d.orders.cols.count c
        + d.products.cols.count c + d.sellers.cols.count c
        + d.order_payments.cols.count c := by
  rw [fact_cols_eq, count_joinCols_ne _ _ h1, count_joinCols_ne _ _ h3,
    count_joinCols_ne _ _ h2, count_joinCols_ne _ _ h1]

/-- C6 amended witness: at the concrete colliding input, the column x
appears once in Order and once in Product and twice in the fact table. -/
theorem C6_amended_column_multiplicity_witness :
    ("x" ≠ "order_id" ∧ "x" ≠ "product_id" ∧ "x" ≠ "seller_id")
    ∧ (fact_orders_df datasetC6).cols.count "x" =
        datasetC6.order_items.cols.count "x" + datasetC6.orders.cols.count "x"
          + datasetC6.products.cols.count "x" + datasetC6.sellers.cols.count "x"
          + datasetC6.order_payments.cols.count "x" :=
  ⟨⟨by decide, by decide, by decide⟩,
   C6_amended_column_multiplicity datasetC6 "x" (by decide) (by decide) (by decide)⟩

theorem insertByCountDesc_perm (p : Val × Nat) (l : List (Val × Nat)) :
    (insertByCountDesc p l).Perm (p :: l) := by
  induction l with
  | nil => simp [insertByCountDesc]
  | cons q qs ih =>
    by_cases h : p.2 ≤ q.2
    · simp only [insertByCountDesc, if_pos h]
      exact (ih.cons q).trans (List.Perm.swap p q qs)
    · simp [insertByCountDesc, if_neg h]

theorem sortByCountDesc_perm (l : List (Val × Nat)) :
    (sortByCountDesc l).Perm l := by
  induction l with
  | nil => simp [sortByCountDesc]
  | cons p ps ih =>
    exact (insertByCountDesc_perm p (sortByCountDesc ps)).trans (ih.cons p)

theorem insertByCountDesc_sorted (p : Val × Nat) (l : List (Val × Nat))
    (h : l.Pairwise (fun a b => b.2 ≤ a.2)) :
    (insertByCountDesc p l).Pairwise (fun a b => b.2 ≤ a.2) := by
  induction l with
  | nil => simp [insertByCountDesc]
  | cons q qs ih =>
    rw [List.pairwise_cons] at h
    obtain ⟨hq, hqs⟩ := h
    by_cases hpq : p.2 ≤ q.2
    · simp only [insertByCountDesc, if_pos hpq]
      rw [List.pairwise_cons]
      refine ⟨?_, ih hqs⟩
      intro x hx
      have hx' := (insertByCountDesc_perm p qs).mem_iff.mp hx
      rcases List.mem_cons.mp hx' with h1 | h1
      · simpa [h1] using hpq
      · exact hq x h1
    · simp only [insertByCountDesc, if_neg hpq]
      rw [List.pairwise_cons]
      refine ⟨?_, ?_⟩
      · intro x hx
        rcases List.mem_cons.mp hx with h1 | h1
        · simpa [h1] using Nat.le_of_lt (Nat.lt_of_not_le hpq)
        · exact Nat.le_trans (hq x h1) (Nat.le_of_lt (Nat.lt_of_not_le hpq))
      · rw [List.pairwise_cons]
        exact ⟨hq, hqs⟩

theorem sortByCountDesc_sorted (l : List (Val × Nat)) :
    (sortByCountDesc l).Pairwise (fun a b => b.2 ≤ a.2) := by
  induction l with
  | nil => simp [sortByCountDesc]
  | cons p ps ih =>
    exact insertByCountDesc_sorted p _ ih

theorem groupCountBy_mem (t : Table) (c : String) (p : Val × Nat)
    (hp : p ∈ groupCountBy t c) :
    p.2 = (t.rows.filter (fun r => decide (getCol c r = p.1))).length
    ∧ ∃ r ∈ t.rows, getCol c r = p.1 := by
  simp only [groupCountBy, List.mem_map] at hp
  obtain ⟨v, hv, hpv⟩ := hp
  subst hpv
  refine ⟨rfl, ?_⟩
  have hv' := dedupOn_mem id _ _ _ hv
  simp only [List.mem_map] at hv'
  obtain ⟨r, hr, hrv⟩ := hv'
  exact ⟨r, hr, hrv⟩

theorem groupCountBy_keys_distinct (t : Table) (c : String) :
    (groupCountBy t c).Pairwise (fun p q => p.1 ≠ q.1) := by
  have h := dedupOn_pairwise (id : Val → Val) (t.rows.map (getCol c)) []
  exact h.map _ (fun a b hab => by simpa using hab)

/-- C5 counterexample: on an input whose raw Order table has two rows
sharing an order_id, the report the script computes (over the
deduplicated table rebound at line 75) differs from the claimed report
over the raw table: the code counts 1 order for C1, the claim counts 2. -/
theorem C5_counterexample :
    topCustomersByOrderCount datasetC5 ≠ topCustomersClaimedRaw datasetC5
    ∧ topCustomersByOrderCount datasetC5 = [(Val.vstr "C1", 1)]
    ∧ topCustomersClaimedRaw datasetC5 = [(Val.vstr "C1", 2)] := by
  refine ⟨by decide, by decide, by decide⟩

/-- C5 amended: the top-customers report groups the cleaned
(deduplicated on order_id) Order table by customer_id, counts rows per
group, orders descending by count and truncates to 10: the result has at
most 10 entries, non-increasing counts, pairwise distinct customers, and
each entry pairs an occurring customer_id value with its exact row count
in the deduplicated Order table. -/
theorem C5_amended_top_customers (d : Dataset) :
    (topCustomersByOrderCount d).length ≤ 10
    ∧ (topCustomersByOrderCount d).Pairwise (fun p q => q.2 ≤ p.2)
    ∧ (topCustomersByOrderCount d).Pairwise (fun p q => p.1 ≠ q.1)
    ∧ ∀ p ∈ topCustomersByOrderCount d,
        p.2 = ((ordersClean d).rows.filter
          (fun r => decide (getCol "customer_id" r = p.1))).length
        ∧ ∃ r ∈ (ordersClean d).rows, getCol "customer_id" r = p.1 := by
  refine ⟨List.length_take_le _ _, ?_, ?_, ?_⟩
  · exact (sortByCountDesc_sorted _).sublist (List.take_sublist _ _)
  · have hperm := sortByCountDesc_perm (groupCountBy (ordersClean d) "customer_id")
    have := (hperm.pairwise_iff (fun h => Ne.symm h)).mpr
      (groupCountBy_keys_distinct _ _)
    exact this.sublist (List.take_sublist _ _)
  · intro p hp
    have hp1 : p ∈ sortByCountDesc (groupCountBy (ordersClean d) "customer_id") :=
      List.mem_of_mem_take hp
    have hp2 : p ∈ groupCountBy (ordersClean d) "customer_id" :=
      (sortByCountDesc_perm _).mem_iff.mp hp1
    exact groupCountBy_mem _ _ p hp2

/-- C5 amended witness: the amended description holds at the concrete
counterexample input, whose report is C1 with one deduplicated order. -/
theorem C5_amended_top_customers_witness :
    ((Val.vstr "C1", 1) ∈ topCustomersByOrderCount datasetC5)
    ∧ (Val.vstr "C1", 1).2 = ((ordersClean datasetC5).rows.filter
        (fun r => decide (getCol "customer_id" r = (Val.vstr "C1", 1).1))).length :=
  ⟨by decide,
   ((C5_amended_top_customers datasetC5).2.2.2 _ (by decide)).1⟩

theorem fact_rows_unfold (d : Dataset) :
    (fact_orders_df d).rows
      = leftRows "order_id" (stageJ3 d) d.order_payments.rows
          d.order_payments.cols := rfl

theorem keyMatches_comm (k : String) (a b : Row) :
    keyMatches k a b = keyMatches k b a := by
  simp only [keyMatches]
  by_cases h3 : getCol k a = getCol k b
  · rw [h3]
  · have h3' : getCol k b ≠ getCol k a := fun h => h3 h.symm
    simp [h3, h3']

theorem matchesOf_congr (k : String) (a b : Row) (rs : List Row)
    (h : getCol k a = getCol k b) : matchesOf k a rs = matchesOf k b rs := by
  have hf : keyMatches k a = keyMatches k b := by
    funext r
    simp [keyMatches, h]
  simp [matchesOf, hf]

theorem lookup_eraseKeyFirst_ne (c k : String) (h : c ≠ k) :
    ∀ r : Row, List.lookup c (eraseKeyFirst k r) = List.lookup c r := by
  intro r
  induction r with
  | nil => simp [eraseKeyFirst]
  | cons p r ih =>
    obtain ⟨k1, x⟩ := p
    by_cases hk : k1 = k
    · have hck : (c == k1) = false := by
        simp [hk, h]
      have hck2 : (c == k) = false := by simp [h]
      simp [eraseKeyFirst, hk, List.lookup, hck, hck2]
    · by_cases hck : c = k1
      · subst hck
        simp [eraseKeyFirst, hk, List.lookup]
      · have hck' : (c == k1) = false := by simp [hck]
        simp [eraseKeyFirst, hk, List.lookup, hck', ih]

theorem lookup_append_someL (c : String) (v : Val) :
    ∀ (l1 l2 : Row), List.lookup c l1 = some v →
      List.lookup c (l1 ++ l2) = some v := by
  intro l1 l2 h
  induction l1 with
  | nil => simp [List.lookup] at h
  | cons p l1 ih =>
    obtain ⟨k1, x⟩ := p
    by_cases hck : c = k1
    · subst hck
      simp [List.lookup] at h ⊢
      exact h
    · have hck' : (c == k1) = false := by simp [hck]
      simp [List.lookup, hck'] at h ⊢
      exact ih h

theorem lookup_mergeUsing_key (k : String) (l rr : Row) :
    List.lookup k (mergeUsing k l rr) = some (getCol k l) := by
  simp [mergeUsing, List.lookup]

theorem lookup_mergeUsing_ne (c k : String) (hck : c ≠ k) (l rr : Row) (v : Val)
    (h : List.lookup c l = some v) :
    List.lookup c (mergeUsing k l rr) = some v := by
  have hb : (c == k) = false := by simp [hck]
  have h1 : List.lookup c (eraseKeyFirst k l) = some v := by
    rw [lookup_eraseKeyFirst_ne c k hck l]
    exact h
  simp only [mergeUsing, List.lookup, hb]
  exact lookup_append_someL c v _ _ h1

theorem getCol_mergeUsing_key (k : String) (l rr : Row) :
    getCol k (mergeUsing k l rr) = getCol k l := by
  simp [getCol, lookup_mergeUsing_key]

theorem getCol_mergeUsing_ne (c k : String) (hck : c ≠ k) (l rr : Row) (v : Val)
    (h : List.lookup c l = some v) :
    getCol c (mergeUsing k l rr) = getCol c l := by
  simp [getCol, lookup_mergeUsing_ne c k hck l rr v h, h]

theorem mem_innerRows (k : String) :
    ∀ (ls rs : List Row) (r : Row), r ∈ innerRows k ls rs →
      ∃ l ∈ ls, ∃ rr, r = mergeUsing k l rr := by
  intro ls
  induction ls with
  | nil =>
    intro rs r h
    simp [innerRows] at h
  | cons a ls ih =>
    intro rs r h
    simp only [innerRows, List.mem_append, List.mem_map] at h
    rcases h with ⟨rr, hrr, hr⟩ | h
    · exact ⟨a, List.mem_cons_self a ls, rr, hr.symm⟩
    · obtain ⟨l, hl, rr, hr⟩ := ih rs r h
      exact ⟨l, List.mem_cons_of_mem _ hl, rr, hr⟩

theorem mem_leftRows (k : String) :
    ∀ (ls rs : List Row) (rcols : List String) (r : Row),
      r ∈ leftRows k ls rs rcols → ∃ l ∈ ls, ∃ rr, r = mergeUsing k l rr := by
  intro ls
  induction ls with
  | nil =>
    intro rs rcols r h
    simp [leftRows] at h
  | cons a ls ih =>
    intro rs rcols r h
    simp only [leftRows, List.mem_append] at h
    rcases h with h | h
    · unfold leftRowsOne at h
      cases hm : matchesOf k a rs with
      | nil =>
        rw [hm] at h
        simp at h
        exact ⟨a, List.mem_cons_self a ls, nullRowOf rcols, h⟩
      | cons m ms =>
        rw [hm] at h
        simp only [List.mem_map] at h
        obtain ⟨rr, hrr, hr⟩ := h
        exact ⟨a, List.mem_cons_self a ls, rr, hr.symm⟩
    · obtain ⟨l, hl, rr, hr⟩ := ih rs rcols r h
      exact ⟨l, List.mem_cons_of_mem _ hl, rr, hr⟩

theorem leftRowsOne_length (k : String) (l : Row) (rs : List Row)
    (rcols : List String) :
    (leftRowsOne k l rs rcols).length = max 1 (matchesOf k l rs).length := by
  unfold leftRowsOne
  cases hm : matchesOf k l rs with
  | nil => simp
  | cons m ms =>
    simp [Nat.max_eq_right (Nat.succ_le_succ (Nat.zero_le ms.length))]

theorem leftRows_length (k : String) :
    ∀ (ls rs : List Row) (rcols : List String),
      (leftRows k ls rs rcols).length
        = (ls.map (fun l => max 1 (matchesOf k l rs).length)).sum := by
  intro ls
  induction ls with
  | nil => intro rs rcols; simp [leftRows]
  | cons a ls ih =>
    intro rs rcols
    simp [leftRows, List.length_append, leftRowsOne_length, ih]

theorem sum_map_eq_const {α : Type} (l : List α) (f : α → Nat) (c : Nat)
    (h : ∀ x ∈ l, f x = c) : (l.map f).sum = l.length * c := by
  induction l with
  | nil => simp
  | cons a l ih =>
    have ha := h a (List.mem_cons_self a l)
    have hrest := ih (fun x hx => h x (List.mem_cons_of_mem _ hx))
    simp only [List.map_cons, List.sum_cons, List.length_cons, ha, hrest,
      Nat.succ_mul]
    omega

theorem sum_map_add_nat {α : Type} (l : List α) (f g : α → Nat) :
    (l.map (fun x => f x + g x)).sum = (l.map f).sum + (l.map g).sum := by
  induction l with
  | nil => simp
  | cons a l ih =>
    simp only [List.map_cons, List.sum_cons, ih]
    omega

theorem sum_map_swap_nat {α β : Type} (A : List α) (B : List β)
    (F : α → β → Nat) :
    (A.map (fun a => (B.map (fun b => F a b)).sum)).sum
      = (B.map (fun b => (A.map (fun a => F a b)).sum)).sum := by
  induction A with
  | nil =>
    simp only [List.map_nil, List.sum_nil]
    rw [sum_map_eq_const B _ 0 (fun _ _ => by simp)]
    omega
  | cons a A ih =>
    simp only [List.map_cons, List.sum_cons, ih]
    have h := sum_map_add_nat B (fun b => F a b)
      (fun b => (A.map (fun x => F x b)).sum)
    rw [h]

theorem sum_map_ite_eq {α : Type} (l : List α) (p : α → Bool) (g : α → Nat)
    (c : Nat) (h : ∀ a ∈ l, p a = true → g a = c) :
    (l.map (fun a => if p a then g a else 0)).sum = (l.filter p).length * c := by
  induction l with
  | nil => simp
  | cons a l ih =>
    have hrest := ih (fun x hx hp => h x (List.mem_cons_of_mem _ hx) hp)
    by_cases hpa : p a = true
    · have ha := h a (List.mem_cons_self a l) hpa
      simp only [List.map_cons, List.sum_cons, hpa, if_true, ha, hrest,
        List.filter_cons, List.length_cons, Nat.succ_mul]
      omega
    · have hpa' : p a = false := by
        revert hpa
        cases p a <;> simp
      simp [hpa', hrest, List.filter_cons]

theorem matches_le_one (k : String) :
    ∀ rs : List Row,
      rs.Pairwise (fun a b =>
        getCol k a = getCol k b → getCol k a = Val.vnull) →
      ∀ l : Row, (matchesOf k l rs).length ≤ 1 := by
  intro rs
  induction rs with
  | nil =>
    intro _ l
    simp [matchesOf]
  | cons a rs ih =>
    intro hU l
    rw [List.pairwise_cons] at hU
    obtain ⟨ha, hrs⟩ := hU
    by_cases hka : keyMatches k l a = true
    · have h1 : getCol k l ≠ Val.vnull ∧ getCol k l = getCol k a := by
        simpa [keyMatches] using hka
      have hnil : List.filter (keyMatches k l) rs = [] := by
        rw [List.filter_eq_nil_iff]
        intro b hb hkb
        have h2 : getCol k l ≠ Val.vnull ∧ getCol k l = getCol k b := by
          simpa [keyMatches] using hkb
        have hab : getCol k a = getCol k b := h1.2.symm.trans h2.2
        have := ha b hb hab
        exact h1.1 (h1.2.trans this)
      simp [matchesOf, List.filter_cons, hka, hnil]
    · have hka' : keyMatches k l a = false := by
        revert hka
        cases keyMatches k l a <;> simp
      have := ih hrs l
      simpa [matchesOf, List.filter_cons, hka'] using this

theorem leftRows_sum_invariant (k : String) (g : Row → Nat) :
    ∀ (ls rs : List Row) (rcols : List String),
      (∀ l ∈ ls, ∀ rr, g (mergeUsing k l rr) = g l) →
      (∀ l ∈ ls, (matchesOf k l rs).length ≤ 1) →
      ((leftRows k ls rs rcols).map g).sum = (ls.map g).sum := by
  intro ls
  induction ls with
  | nil =>
    intro rs rcols _ _
    simp [leftRows]
  | cons a ls ih =>
    intro rs rcols hg hm
    have ha := hg a (List.mem_cons_self a ls)
    have h1 : ((leftRowsOne k a rs rcols).map g).sum = g a := by
      unfold leftRowsOne
      cases hma : matchesOf k a rs with
      | nil => simp [ha]
      | cons m ms =>
        have hlen := hm a (List.mem_cons_self a ls)
        rw [hma] at hlen
        simp only [List.length_cons] at hlen
        have hms : ms = [] := by
          cases ms with
          | nil => rfl
          | cons x xs => simp at hlen
        subst hms
        simp [ha]
    simp only [leftRows, List.map_append, List.sum_append, h1, List.map_cons,
      List.sum_cons]
    rw [ih rs rcols (fun l hl => hg l (List.mem_cons_of_mem _ hl))
      (fun l hl => hm l (List.mem_cons_of_mem _ hl))]

theorem innerRows_map_sum (k : String) (g : Row → Nat) :
    ∀ (ls rs : List Row),
      (∀ l ∈ ls, ∀ rr, g (mergeUsing k l rr) = g l) →
      ((innerRows k ls rs).map g).sum
        = (ls.map (fun l => (matchesOf k l rs).length * g l)).sum := by
  intro ls
  induction ls with
  | nil =>
    intro rs _
    simp [innerRows]
  | cons a ls ih =>
    intro rs hg
    have ha : ∀ rr ∈ matchesOf k a rs, g (mergeUsing k a rr) = g a :=
      fun rr _ => hg a (List.mem_cons_self a ls) rr
    have h1 : (((matchesOf k a rs).map (mergeUsing k a)).map g).sum
        = (matchesOf k a rs).length * g a := by
      rw [List.map_map]
      exact sum_map_eq_const _ _ _ (fun x hx => ha x hx)
    simp only [innerRows, List.map_append, List.sum_append, h1, List.map_cons,
      List.sum_cons]
    rw [ih rs (fun l hl => hg l (List.mem_cons_of_mem _ hl))]

theorem sum_matches_swap (k : String) (A B : List Row) (g : Row → Nat)
    (hg : ∀ a b : Row, getCol k a = getCol k b → g a = g b) :
    (A.map (fun a => (matchesOf k a B).length * g a)).sum
      = (B.map (fun o => (matchesOf k o A).length * g o)).sum := by
  have h1 : ∀ a : Row, (matchesOf k a B).length * g a
      = (B.map (fun o => if keyMatches k a o then g a else 0)).sum := by
    intro a
    rw [sum_map_ite_eq B (keyMatches k a) (fun _ => g a) (g a)
      (fun _ _ _ => rfl)]
    rfl
  have h2 : ∀ o : Row,
      (A.map (fun a => if keyMatches k a o then g a else 0)).sum
        = (matchesOf k o A).length * g o := by
    intro o
    have hcomm : ∀ a : Row, keyMatches k a o = keyMatches k o a :=
      fun a => keyMatches_comm k a o
    have hconst : ∀ a ∈ A, keyMatches k o a = true → g a = g o := by
      intro a _ hpa
      have hoa : getCol k o ≠ Val.vnull ∧ getCol k o = getCol k a := by
        simpa [keyMatches] using hpa
      exact hg a o hoa.2.symm
    simp only [hcomm]
    rw [sum_map_ite_eq A (keyMatches k o) g (g o) hconst]
    rfl
  simp only [h1]
  rw [sum_map_swap_nat A B (fun a o => if keyMatches k a o then g a else 0)]
  simp only [h2]

theorem stageJ1_lookup_key (d : Dataset) :
    ∀ r ∈ stageJ1 d, ∃ v, List.lookup "order_id" r = some v := by
  intro r hr
  obtain ⟨l, _, rr, hreq⟩ := mem_innerRows "order_id" _ _ r hr
  subst hreq
  exact ⟨getCol "order_id" l, lookup_mergeUsing_key "order_id" l rr⟩

theorem stageJ2_lookup_key (d : Dataset) :
    ∀ r ∈ stageJ2 d, ∃ v, List.lookup "order_id" r = some v := by
  intro r hr
  obtain ⟨l, hl, rr, hreq⟩ := mem_leftRows "product_id" _ _ _ r hr
  subst hreq
  obtain ⟨v, hv⟩ := stageJ1_lookup_key d l hl
  exact ⟨v, lookup_mergeUsing_ne "order_id" "product_id" (by decide) l rr v hv⟩

theorem payFanOut_congr (d : Dataset) (a b : Row)
    (h : getCol "order_id" a = getCol "order_id" b) :
    payFanOut d a = payFanOut d b := by
  simp [payFanOut, matchesOf_congr "order_id" a b _ h]

theorem productsClean_key_pairwise (d : Dataset)
    (hp : d.products.rows.Pairwise (fun a b =>
      getCol "product_id" a = getCol "product_id" b →
        getCol "product_id" a = Val.vnull)) :
    (productsClean d).rows.Pairwise (fun a b =>
      getCol "product_id" a = getCol "product_id" b →
        getCol "product_id" a = Val.vnull) := by
  have hcol : ∀ r : Row,
      getCol "product_id"
          (r.map (fillnaCell "product_category_name" (Val.vstr "unknown")))
        = getCol "product_id" r := by
    intro r
    simp [getCol,
      lookup_map_fillnaCell_ne "product_category_name" "product_id" _ r (by decide)]
  simp only [productsClean, fillnaCol]
  rw [List.pairwise_map]
  refine hp.imp ?_
  intro a b hab
  rw [hcol a, hcol b]
  exact hab

/-- C1 counterexample: the fact-table row count differs from the claimed
formula (summed over cleaned orders: matching items times matching
payments, an item counting once when no payment matches) on a
full-schema dataset whose Product table carries a duplicated
product_id.  The input satisfies the seller-uniqueness side of the
amendment and violates exactly its product-uniqueness side. -/
theorem C1_counterexample :
    (fact_orders_df datasetC1x).rows.length ≠
      ((ordersClean datasetC1x).rows.map
        (fun o => itemCountFor datasetC1x o * max 1 (paymentCountFor datasetC1x o))).sum
    ∧ (fact_orders_df datasetC1x).rows.length = 2
    ∧ ((ordersClean datasetC1x).rows.map
        (fun o => itemCountFor datasetC1x o
          * max 1 (paymentCountFor datasetC1x o))).sum = 1
    ∧ ¬ datasetC1x.products.rows.Pairwise (fun a b =>
        getCol "product_id" a = getCol "product_id" b →
          getCol "product_id" a = Val.vnull)
    ∧ datasetC1x.sellers.rows.Pairwise (fun a b =>
        getCol "seller_id" a = getCol "seller_id" b →
          getCol "seller_id" a = Val.vnull) := by
  refine ⟨by decide, by decide, by decide, by decide, by decide⟩

/-- C1 amended: provided product_id is unique among Product rows and
seller_id unique among Seller rows (as the data model asserts for these
key columns; non-null uniqueness), the fact-table row count equals the
sum over cleaned orders of (number of matching cleaned item rows) times
(number of matching payment rows, counting 1 when no payment matches,
since the left join keeps such rows once).  Orders matched by no item
contribute zero terms, which realises the inner-join restriction to
surviving orders. -/
theorem C1_amended_fact_row_count (d : Dataset)
    (hp : d.products.rows.Pairwise (fun a b =>
      getCol "product_id" a = getCol "product_id" b →
        getCol "product_id" a = Val.vnull))
    (hs : d.sellers.rows.Pairwise (fun a b =>
      getCol "seller_id" a = getCol "seller_id" b →
        getCol "seller_id" a = Val.vnull)) :
    (fact_orders_df d).rows.length =
      ((ordersClean d).rows.map
        (fun o => itemCountFor d o * max 1 (paymentCountFor d o))).sum := by
  have h4 : (fact_orders_df d).rows.length
      = ((stageJ3 d).map (payFanOut d)).sum := by
    rw [fact_rows_unfold, leftRows_length]
    rfl
  have h3 : ((stageJ3 d).map (payFanOut d)).sum
      = ((stageJ2 d).map (payFanOut d)).sum := by
    refine leftRows_sum_invariant "seller_id" (payFanOut d) _ _ _ ?_ ?_
    · intro l hl rr
      obtain ⟨v, hv⟩ := stageJ2_lookup_key d l hl
      exact payFanOut_congr d _ _
        (getCol_mergeUsing_ne "order_id" "seller_id" (by decide) l rr v hv)
    · intro l _
      exact matches_le_one "seller_id" d.sellers.rows hs l
  have h2 : ((stageJ2 d).map (payFanOut d)).sum
      = ((stageJ1 d).map (payFanOut d)).sum := by
    refine leftRows_sum_invariant "product_id" (payFanOut d) _ _ _ ?_ ?_
    · intro l hl rr
      obtain ⟨v, hv⟩ := stageJ1_lookup_key d l hl
      exact payFanOut_congr d _ _
        (getCol_mergeUsing_ne "order_id" "product_id" (by decide) l rr v hv)
    · intro l _
      exact matches_le_one "product_id" (productsClean d).rows
        (productsClean_key_pairwise d hp) l
  have h1 : ((stageJ1 d).map (payFanOut d)).sum
      = ((orderItemsClean d).rows.map
          (fun a => (matchesOf "order_id" a (ordersClean d).rows).length
            * payFanOut d a)).sum := by
    refine innerRows_map_sum "order_id" (payFanOut d) _ _ ?_
    intro l _ rr
    exact payFanOut_congr d _ _ (getCol_mergeUsing_key "order_id" l rr)
  have h0 : ((orderItemsClean d).rows.map
        (fun a => (matchesOf "order_id" a (ordersClean d).rows).length
          * payFanOut d a)).sum
      = ((ordersClean d).rows.map
          (fun o => (matchesOf "order_id" o (orderItemsClean d).rows).length
            * payFanOut d o)).sum :=
    sum_matches_swap "order_id" _ _ (payFanOut d)
      (fun a b h => payFanOut_congr d a b h)
  rw [h4, h3, h2, h1, h0]
  rfl

/-- C1 amended witness: the uniqueness hypotheses hold at the concrete
dataset and the count formula evaluates there — two items times two
payments equal four fact rows. -/
theorem C1_amended_fact_row_count_witness :
    (datasetC1w.products.rows.Pairwise (fun a b =>
        getCol "product_id" a = getCol "product_id" b →
          getCol "product_id" a = Val.vnull)
      ∧ datasetC1w.sellers.rows.Pairwise (fun a b =>
        getCol "seller_id" a = getCol "seller_id" b →
          getCol "seller_id" a = Val.vnull))
    ∧ (fact_orders_df datasetC1w).rows.length =
        ((ordersClean datasetC1w).rows.map
          (fun o => itemCountFor datasetC1w o
            * max 1 (paymentCountFor datasetC1w o))).sum
    ∧ (fact_orders_df datasetC1w).rows.length = 4 :=
  ⟨⟨by decide, by decide⟩,
   C1_amended_fact_row_count datasetC1w (by decide) (by decide),
   by decide⟩

theorem descBefore_irrefl_ion (v : Val) (h : isIntOrNull v = true) :
    descBefore v v = false := by
  cases v with
  | vnull => rfl
  | vstr s => simp [isIntOrNull] at h
  | vint a => simp [descBefore]

theorem descBefore_trans_ion (u v w : Val) (hu : isIntOrNull u = true)
    (hv : isIntOrNull v = true) (hw : isIntOrNull w = true)
    (h1 : descBefore u v = true) (h2 : descBefore v w = true) :
    descBefore u w = true := by
  cases u <;> cases v <;> cases w <;>
    simp_all [descBefore, isIntOrNull] <;> omega

theorem descBefore_total_ion (u v : Val) (hu : isIntOrNull u = true)
    (hv : isIntOrNull v = true) (hne : u ≠ v) :
    descBefore u v = true ∨ descBefore v u = true := by
  cases u <;> cases v <;> simp_all [descBefore, isIntOrNull] <;> omega

theorem exists_max_image_cons {α : Type} (f : α → Nat) :
    ∀ (l : List α) (a : α), ∃ m ∈ a :: l, ∀ x ∈ a :: l, f x ≤ f m := by
  intro l
  induction l with
  | nil =>
    intro a
    refine ⟨a, List.mem_cons_self a _, ?_⟩
    intro x hx
    rcases List.mem_cons.mp hx with h | h
    · subst h; exact Nat.le_refl _
    · simp at h
  | cons b t ih =>
    intro a
    obtain ⟨m, hm, hmax⟩ := ih b
    by_cases ham : f a ≤ f m
    · refine ⟨m, List.mem_cons_of_mem _ hm, ?_⟩
      intro x hx
      rcases List.mem_cons.mp hx with h | h
      · subst h; exact ham
      · exact hmax x h
    · refine ⟨a, List.mem_cons_self a _, ?_⟩
      intro x hx
      rcases List.mem_cons.mp hx with h | h
      · subst h; exact Nat.le_refl _
      · exact Nat.le_trans (hmax x h) (Nat.le_of_not_le ham)

theorem exists_max_image {α : Type} (l : List α) (f : α → Nat) (h : l ≠ []) :
    ∃ m ∈ l, ∀ x ∈ l, f x ≤ f m := by
  cases l with
  | nil => exact absurd rfl h
  | cons a t => exact exists_max_image_cons f t a

theorem length_filter_mono {α : Type} (p q : α → Bool) :
    ∀ l : List α, (∀ x ∈ l, p x = true → q x = true) →
      (l.filter p).length ≤ (l.filter q).length := by
  intro l
  induction l with
  | nil => intro _; simp
  | cons a l ih =>
    intro h
    have hrest := ih (fun x hx => h x (List.mem_cons_of_mem _ hx))
    by_cases hpa : p a = true
    · have hqa := h a (List.mem_cons_self a l) hpa
      simp only [List.filter_cons, hpa, if_true, hqa, List.length_cons]
      omega
    · have hpa' : p a = false := by
        revert hpa
        cases p a <;> simp
      cases hqa : q a <;>
        simp only [List.filter_cons, hpa', hqa, List.length_cons] <;>
        simp <;> omega

theorem length_filter_lt {α : Type} (p q : α → Bool) (m : α) :
    ∀ l : List α, m ∈ l → p m = false → q m = true →
      (∀ x ∈ l, p x = true → q x = true) →
      (l.filter p).length < (l.filter q).length := by
  intro l
  induction l with
  | nil =>
    intro hm
    simp at hm
  | cons a l ih =>
    intro hm hpm hqm himp
    rcases List.mem_cons.mp hm with h | hml
    · subst h
      have hmono := length_filter_mono p q l
        (fun x hx => himp x (List.mem_cons_of_mem _ hx))
      simp only [List.filter_cons, hpm, hqm, if_true, List.length_cons]
      simp
      omega
    · have hrest := ih hml hpm hqm (fun x hx => himp x (List.mem_cons_of_mem _ hx))
      by_cases hpa : p a = true
      · have hqa := himp a (List.mem_cons_self a l) hpa
        simp only [List.filter_cons, hpa, hqa, if_true, List.length_cons]
        omega
      · have hpa' : p a = false := by
          revert hpa
          cases p a <;> simp
        cases hqa : q a <;>
          simp only [List.filter_cons, hpa', hqa, List.length_cons] <;>
          simp <;> omega

theorem length_filter_le_succ {α : Type} (p q : α → Bool) (m : α) :
    ∀ l : List α, l.Nodup →
      (∀ x ∈ l, q x = true → (p x = true ∨ x = m)) →
      (l.filter q).length ≤ (l.filter p).length + 1 := by
  intro l
  induction l with
  | nil =>
    intro _ _
    simp
  | cons a l ih =>
    intro hnd hsub
    obtain ⟨hanotin, hndl⟩ := List.nodup_cons.mp hnd
    by_cases hqa : q a = true
    · rcases hsub a (List.mem_cons_self a l) hqa with hpa | ham
      · have hrest := ih hndl (fun x hx hq => hsub x (List.mem_cons_of_mem _ hx) hq)
        simp only [List.filter_cons, hqa, hpa, if_true, List.length_cons]
        omega
      · have hmono : (l.filter q).length ≤ (l.filter p).length := by
          apply length_filter_mono q p l
          intro x hx hqx
          rcases hsub x (List.mem_cons_of_mem _ hx) hqx with h | h
          · exact h
          · exfalso
            apply hanotin
            rw [← ham] at h
            exact h ▸ hx
        by_cases hpa : p a = true <;>
          simp only [List.filter_cons, hqa, hpa, if_true, List.length_cons] <;>
          simp <;> omega
    · have hqa' : q a = false := by
        revert hqa
        cases q a <;> simp
      have hrest := ih hndl (fun x hx hq => hsub x (List.mem_cons_of_mem _ hx) hq)
      by_cases hpa : p a = true <;>
        simp only [List.filter_cons, hqa', hpa, if_true, List.length_cons] <;>
        simp <;> omega

/-- In a duplicate-free list of integer-or-null values, every value
strictly preceded by at least one listed value has an immediate
predecessor in the list: a listed value m preceding it whose own count
of strictly preceding listed values is exactly one smaller. -/
theorem exists_pred_rank (P : List Val) (hnd : P.Nodup)
    (hion : ∀ v ∈ P, isIntOrNull v = true) (pv : Val)
    (hpv : isIntOrNull pv = true)
    (hpos : 0 < (P.filter (fun v => descBefore v pv)).length) :
    ∃ m ∈ P, descBefore m pv = true ∧
      (P.filter (fun v => descBefore v m)).length + 1
        = (P.filter (fun v => descBefore v pv)).length := by
  have hQne : P.filter (fun v => descBefore v pv) ≠ [] := by
    intro h
    rw [h] at hpos
    simp at hpos
  obtain ⟨m, hmQ, hmax⟩ := exists_max_image _
    (fun x => (P.filter (fun v => descBefore v x)).length) hQne
  have hmP : m ∈ P := List.mem_of_mem_filter hmQ
  have hmpv : descBefore m pv = true := by
    have := List.of_mem_filter hmQ
    simpa using this
  have hion_m : isIntOrNull m = true := hion m hmP
  refine ⟨m, hmP, hmpv, ?_⟩
  have hlt : (P.filter (fun v => descBefore v m)).length
      < (P.filter (fun v => descBefore v pv)).length := by
    refine length_filter_lt _ _ m P hmP (descBefore_irrefl_ion m hion_m) hmpv ?_
    intro x hx hxm
    exact descBefore_trans_ion x m pv (hion x hx) hion_m hpv hxm hmpv
  have hle : (P.filter (fun v => descBefore v pv)).length
      ≤ (P.filter (fun v => descBefore v m)).length + 1 := by
    refine length_filter_le_succ _ _ m P hnd ?_
    intro x hxP hxpv
    by_cases hxm : x = m
    · exact Or.inr hxm
    · rcases descBefore_total_ion x m (hion x hxP) hion_m hxm with h | h
      · exact Or.inl h
      · exfalso
        have hstrict : (P.filter (fun v => descBefore v m)).length
            < (P.filter (fun v => descBefore v x)).length := by
          refine length_filter_lt _ _ m P hmP
            (descBefore_irrefl_ion m hion_m) h ?_
          intro y hy hym
          exact descBefore_trans_ion y m x (hion y hy) hion_m (hion x hxP) hym h
        have hmax_x := hmax x (List.mem_filter.mpr ⟨hxP, hxpv⟩)
        simp only at hmax_x
        omega
  omega

theorem denseRank_ties (rows : List Row) (pc oc : String) (r s : Row)
    (hp : getCol pc r = getCol pc s) (ho : getCol oc r = getCol oc s) :
    denseRank rows pc oc r = denseRank rows pc oc s := by
  simp [denseRank, hp, ho]

/-- Dedup keeps only listed elements. -/
theorem partitionVals_mem (prows : List Row) (oc : String) (v : Val)
    (hv : v ∈ partitionVals prows oc) : ∃ s ∈ prows, getCol oc s = v := by
  have := dedupOn_mem id _ _ _ hv
  simp only [List.mem_map] at this
  obtain ⟨s, hs, hsv⟩ := this
  exact ⟨s, hs, hsv⟩

theorem partitionVals_nodup (prows : List Row) (oc : String) :
    (partitionVals prows oc).Nodup := by
  have := dedupOn_pairwise (id : Val → Val) (prows.map (getCol oc)) []
  exact this.imp (fun h => h)

/-- No-gap property of dense ranks: within a partition whose order
values are integers or nulls, every row ranked below the top has a row
of the same partition ranked exactly one above it. -/
theorem denseRank_no_gap (rows : List Row) (pc oc : String) (r : Row)
    (hr : r ∈ rows)
    (htype : ∀ s ∈ rows, getCol pc s = getCol pc r →
      isIntOrNull (getCol oc s) = true)
    (hgt : 1 < denseRank rows pc oc r) :
    ∃ s ∈ rows, getCol pc s = getCol pc r
      ∧ denseRank rows pc oc s + 1 = denseRank rows pc oc r := by
  have hion : ∀ v ∈ partitionVals
      (rows.filter (fun x => decide (getCol pc x = getCol pc r))) oc,
      isIntOrNull v = true := by
    intro v hv
    obtain ⟨s, hs, hsv⟩ := partitionVals_mem _ _ _ hv
    have hs' := List.mem_filter.mp hs
    have hpc : getCol pc s = getCol pc r := by
      have := hs'.2
      simpa using this
    rw [← hsv]
    exact htype s hs'.1 hpc
  have hpv : isIntOrNull (getCol oc r) = true := htype r hr rfl
  have hpos : 0 < ((partitionVals
      (rows.filter (fun x => decide (getCol pc x = getCol pc r))) oc).filter
        (fun v => descBefore v (getCol oc r))).length := by
    simp only [denseRank] at hgt
    omega
  obtain ⟨m, hmP, hmpv, heq⟩ := exists_pred_rank _
    (partitionVals_nodup _ _) hion (getCol oc r) hpv hpos
  obtain ⟨s, hspart, hsm⟩ := partitionVals_mem _ _ _ hmP
  have hs' := List.mem_filter.mp hspart
  have hpc : getCol pc s = getCol pc r := by
    have := hs'.2
    simpa using this
  refine ⟨s, hs'.1, hpc, ?_⟩
  have hpred : (fun x => decide (getCol pc x = getCol pc s))
      = (fun x => decide (getCol pc x = getCol pc r)) := by
    funext x
    rw [hpc]
  simp only [denseRank, hpred, hsm]
  omega

theorem lookup_append_noneL (c : String) :
    ∀ (l1 l2 : Row), List.lookup c l1 = none →
      List.lookup c (l1 ++ l2) = List.lookup c l2 := by
  intro l1 l2 h
  induction l1 with
  | nil => simp
  | cons p l1 ih =>
    obtain ⟨k1, x⟩ := p
    by_cases hck : c = k1
    · subst hck
      simp [List.lookup] at h
    · have hck' : (c == k1) = false := by simp [hck]
      simp only [List.lookup, hck', List.cons_append] at h ⊢
      exact ih h

theorem getCol_append_rank (r : Row) (v : Val)
    (h : List.lookup "rank" r = none) :
    getCol "rank" (r ++ [("rank", v)]) = v := by
  simp [getCol, lookup_append_noneL _ r _ h, List.lookup]

theorem getCol_append_ne (c : String) (r : Row) (v : Val) (h : c ≠ "rank") :
    getCol c (r ++ [("rank", v)]) = getCol c r := by
  have hb : (c == "rank") = false := by simp [h]
  cases hl : List.lookup c r with
  | some w => simp [getCol, lookup_append_someL c w r _ hl, hl]
  | none => simp [getCol, lookup_append_noneL c r _ hl, List.lookup, hb, hl]

theorem filter_map_comm {α β : Type} (l : List α) (f : α → β) (p : β → Bool) :
    (l.map f).filter p = (l.filter (fun x => p (f x))).map f := by
  induction l with
  | nil => simp
  | cons a l ih =>
    by_cases hpa : p (f a) = true
    · simp [List.filter_cons, hpa, ih]
    · have hpa' : p (f a) = false := by
        revert hpa
        cases p (f a) <;> simp
      simp [List.filter_cons, hpa', ih]

theorem map_congr_mem {α β : Type} (l : List α) (f g : α → β)
    (h : ∀ x ∈ l, f x = g x) : l.map f = l.map g := by
  induction l with
  | nil => simp
  | cons a l ih =>
    simp [h a (List.mem_cons_self a l),
      ih (fun x hx => h x (List.mem_cons_of_mem _ hx))]

theorem filter_congr_mem {α : Type} (l : List α) (p q : α → Bool)
    (h : ∀ x ∈ l, p x = q x) : l.filter p = l.filter q := by
  induction l with
  | nil => simp
  | cons a l ih =>
    rw [List.filter_cons, List.filter_cons, h a (List.mem_cons_self a l),
      ih (fun x hx => h x (List.mem_cons_of_mem _ hx))]

/-- C2: the top-5-products-per-seller result is exactly the fact rows of
dense rank at most 5 (ranks computed per seller over descending price),
projected to seller_id, product_id, price, rank — provided no fact row
already carries a column named rank, as the olist schemas guarantee;
dense ranks are shared by equal prices within a seller, have no gaps
(over a numeric-or-null price column), and on the scenario of seller S1
with prices 50, 50, 30 the output retains all three rows with ranks
1, 1, 2. -/
theorem C2_top5_products_per_seller (d : Dataset)
    (hnr : ∀ r ∈ (fact_orders_df d).rows, List.lookup "rank" r = none) :
    ((top_seller_products_df d).rows =
      ((fact_orders_df d).rows.filter
        (fun r => decide
          (denseRank (fact_orders_df d).rows "seller_id" "price" r ≤ 5))).map
        (fun r =>
          [("seller_id", getCol "seller_id" r),
           ("product_id", getCol "product_id" r),
           ("price", getCol "price" r),
           ("rank", Val.vint (Int.ofNat
             (denseRank (fact_orders_df d).rows "seller_id" "price" r)))]))
    ∧ (∀ r ∈ (fact_orders_df d).rows, ∀ s ∈ (fact_orders_df d).rows,
        getCol "seller_id" r = getCol "seller_id" s →
        getCol "price" r = getCol "price" s →
        denseRank (fact_orders_df d).rows "seller_id" "price" r
          = denseRank (fact_orders_df d).rows "seller_id" "price" s)
    ∧ (∀ r ∈ (fact_orders_df d).rows,
        (∀ s ∈ (fact_orders_df d).rows,
          getCol "seller_id" s = getCol "seller_id" r →
          isIntOrNull (getCol "price" s) = true) →
        1 < denseRank (fact_orders_df d).rows "seller_id" "price" r →
        ∃ s ∈ (fact_orders_df d).rows,
          getCol "seller_id" s = getCol "seller_id" r
          ∧ denseRank (fact_orders_df d).rows "seller_id" "price" s + 1
              = denseRank (fact_orders_df d).rows "seller_id" "price" r)
    ∧ top_seller_products_df datasetC2 =
        ⟨["seller_id", "product_id", "price", "rank"],
         [[("seller_id", Val.vstr "S1"), ("product_id", Val.vstr "P1"),
           ("price", Val.vint 50), ("rank", Val.vint 1)],
          [("seller_id", Val.vstr "S1"), ("product_id", Val.vstr "P2"),
           ("price", Val.vint 50), ("rank", Val.vint 1)],
          [("seller_id", Val.vstr "S1"), ("product_id", Val.vstr "P3"),
           ("price", Val.vint 30), ("rank", Val.vint 2)]]⟩ := by
  refine ⟨?_, ?_, ?_, by decide⟩
  · show (((fact_orders_df d).rows.map (fun r => r ++ [("rank",
        Val.vint (Int.ofNat
          (denseRank (fact_orders_df d).rows "seller_id" "price" r)))])).filter
        rankAtMost5).map
      (fun r' => ["seller_id", "product_id", "price", "rank"].map
        (fun c => (c, getCol c r'))) = _
    rw [filter_map_comm, List.map_map]
    have hfilter : ∀ r ∈ (fact_orders_df d).rows,
        rankAtMost5 (r ++ [("rank", Val.vint (Int.ofNat
          (denseRank (fact_orders_df d).rows "seller_id" "price" r)))])
          = decide
            (denseRank (fact_orders_df d).rows "seller_id" "price" r ≤ 5) := by
      intro r hr
      have h1 := getCol_append_rank r
        (Val.vint (Int.ofNat
          (denseRank (fact_orders_df d).rows "seller_id" "price" r)))
        (hnr r hr)
      simp only [rankAtMost5, h1]
      have hiff : (Int.ofNat
            (denseRank (fact_orders_df d).rows "seller_id" "price" r)
              ≤ (5 : Int))
          ↔ denseRank (fact_orders_df d).rows "seller_id" "price" r ≤ 5 := by
        rw [(rfl : (5 : Int) = Int.ofNat 5)]
        exact Int.ofNat_le
      exact decide_eq_decide.mpr hiff
    rw [filter_congr_mem _ _ _ hfilter]
    apply map_congr_mem
    intro r hrf
    have hr := List.mem_of_mem_filter hrf
    simp only [Function.comp, List.map_cons, List.map_nil]
    rw [getCol_append_ne "seller_id" _ _ (by decide),
      getCol_append_ne "product_id" _ _ (by decide),
      getCol_append_ne "price" _ _ (by decide),
      getCol_append_rank _ _ (hnr r hr)]
  · intro r _ s _ hp ho
    exact denseRank_ties _ _ _ r s hp ho
  · intro r hr htype hgt
    exact denseRank_no_gap _ _ _ r hr htype hgt

/-- C2 witness: at the scenario dataset the no-rank-column hypothesis
holds and the projected output equals the filtered, ranked fact rows. -/
theorem C2_top5_products_per_seller_witness :
    (∀ r ∈ (fact_orders_df datasetC2).rows, List.lookup "rank" r = none)
    ∧ (top_seller_products_df datasetC2).rows =
        ((fact_orders_df datasetC2).rows.filter
          (fun r => decide
            (denseRank (fact_orders_df datasetC2).rows "seller_id" "price" r
              ≤ 5))).map
          (fun r =>
            [("seller_id", getCol "seller_id" r),
             ("product_id", getCol "product_id" r),
             ("price", getCol "price" r),
             ("rank", Val.vint (Int.ofNat
               (denseRank (fact_orders_df datasetC2).rows "seller_id" "price"
                 r)))]) :=
  ⟨by decide, (C2_top5_products_per_seller datasetC2 (by decide)).1⟩

end RetailSales
